import Mathlib

/-!
Shallow embedding of `src/dts_parser/dts_flow.py`, a linear pipeline that
fetches paginated U.S. Treasury daily operating-cash records, aggregates
them into a daily series, computes today/MTD/YTD summary statistics and a
day-over-day percent-change series, and prints a fixed-format report.

Modelling choices:
  * calendar dates are a `Date` structure (year, month, day); a pandas
    `Timestamp` is modelled by its chronological key `dateKey`;
  * numeric amounts are rationals; the float results of `pct_change`
    (which can be `inf`/`-inf`/`NaN` when a previous day sums to zero)
    live in `PF`, rationals extended with the three non-finite values;
  * `requests` traffic is a pure `server : Nat -> List RawRecord` giving
    the `data` array of each page; the unbounded `while True` loop is
    embedded with explicit fuel (`FETCH_FUEL`);
  * exceptions raised by the aggregation step (`KeyError` on an empty
    frame, `pd.to_datetime` failure on a malformed date) are `Except`
    errors of type `AggError`.
-/

namespace DtsFlow

/-- A calendar date as carried by a pandas `Timestamp` (normalized, no time
component). -/
structure Date where
  year : Nat
  month : Nat
  day : Nat
deriving DecidableEq, Repr

/-- Chronological key of a date: models the total order on normalized pandas
`Timestamp`s. For valid calendar dates it orders exactly like
(year, month, day) lexicographically. -/
def dateKey (d : Date) : Nat :=
  d.year * 10000 + d.month * 100 + d.day

/-- Lexicographic (calendar) order on dates, `a` on or before `b`. -/
abbrev Date.lexLe (a b : Date) : Prop :=
  a.year < b.year ∨
    (a.year = b.year ∧ (a.month < b.month ∨ (a.month = b.month ∧ a.day ≤ b.day)))

/-- Strict lexicographic (calendar) order on dates, `a` strictly before `b`. -/
abbrev Date.lexLt (a b : Date) : Prop :=
  a.year < b.year ∨
    (a.year = b.year ∧ (a.month < b.month ∨ (a.month = b.month ∧ a.day < b.day)))

/-- Leap-year rule of the Gregorian calendar (as used by pandas date
validation). -/
def isLeap (y : Nat) : Bool :=
  (y % 4 == 0 && y % 100 != 0) || y % 400 == 0

/-- Number of days of month `m` in year `y`. -/
def daysInMonth (y m : Nat) : Nat :=
  if m = 2 then (if isLeap y then 29 else 28)
  else if m = 4 ∨ m = 6 ∨ m = 9 ∨ m = 11 then 30
  else 31

/-- A date that actually exists in the calendar; `pd.to_datetime` accepts
exactly these. -/
def Date.valid (d : Date) : Prop :=
  1 ≤ d.month ∧ d.month ≤ 12 ∧ 1 ≤ d.day ∧ d.day ≤ daysInMonth d.year d.month

instance (d : Date) : Decidable d.valid := by
  unfold Date.valid; infer_instance

/-- One raw record of the API response `data` array: both fields arrive as
strings. -/
structure RawRecord where
  record_date : String
  transaction_today_amt : String
deriving DecidableEq, Repr

/-- Numeric value of a digit list, most significant first. -/
def digitsToNat (cs : List Char) : Nat :=
  cs.foldl (fun a c => a * 10 + (c.toNat - 48)) 0

/-- Build a date after calendar validation; `none` models the exception
`pd.to_datetime` raises on an impossible date. -/
def mkValidDate (y m d : Nat) : Option Date :=
  if 1 ≤ m ∧ m ≤ 12 ∧ 1 ≤ d ∧ d ≤ daysInMonth y m then some ⟨y, m, d⟩ else none

/-- Models `pd.to_datetime` on the ISO `YYYY-MM-DD` strings served by the
API: `none` models the raised exception on malformed input. -/
def parseDate (s : String) : Option Date :=
  match s.data with
  | [y1, y2, y3, y4, h1, m1, m2, h2, d1, d2] =>
    if y1.isDigit && y2.isDigit && y3.isDigit && y4.isDigit && h1 == '-' &&
        m1.isDigit && m2.isDigit && h2 == '-' && d1.isDigit && d2.isDigit then
      mkValidDate (digitsToNat [y1, y2, y3, y4]) (digitsToNat [m1, m2]) (digitsToNat [d1, d2])
    else none
  | _ => none

/-- Models `pd.to_numeric(-, errors := coerce)` on an unsigned decimal
string: digits with at most one decimal point, at least one digit. -/
def parseUnsigned (cs : List Char) : Option ℚ :=
  let intPart := cs.takeWhile (fun c => c != '.')
  match cs.dropWhile (fun c => c != '.') with
  | [] =>
    if !intPart.isEmpty && intPart.all Char.isDigit then some (digitsToNat intPart) else none
  | _ :: fracPart =>
    if intPart.all Char.isDigit && fracPart.all Char.isDigit &&
        (!intPart.isEmpty || !fracPart.isEmpty) then
      some ((digitsToNat intPart : ℚ) + (digitsToNat fracPart : ℚ) / (10 : ℚ) ^ fracPart.length)
    else none

/-- Models `pd.to_numeric(-, errors := coerce)` on the amount strings:
optional sign then an unsigned decimal; `none` models the `NaN` produced for
a malformed (or empty) string. -/
def parseAmount (s : String) : Option ℚ :=
  match s.data with
  | '-' :: rest => (parseUnsigned rest).map (fun q => -q)
  | '+' :: rest => parseUnsigned rest
  | cs => parseUnsigned cs

/-- Models `pd.to_numeric(-, errors := coerce).fillna(0)` on one amount
string: a parse failure contributes zero. -/
def amtOrZero (s : String) : ℚ :=
  (parseAmount s).getD 0

/-- Errors the aggregation step can raise: `emptyData` models the `KeyError`
of `pd.DataFrame([])[...]` when no records were fetched, `badDate` models
the exception of `pd.to_datetime` on a malformed `record_date`. -/
inductive AggError where
  | emptyData : AggError
  | badDate : AggError
deriving DecidableEq, Repr

/-- Parse every row into (date, coerced amount); `none` as soon as one
`record_date` fails to parse (`pd.to_datetime` is applied to the whole
column and raises on the first bad value). -/
def parseRows : List RawRecord → Option (List (Date × ℚ))
  | [] => some []
  | r :: rs =>
    match parseDate r.record_date, parseRows rs with
    | some d, some rest => some ((d, amtOrZero r.transaction_today_amt) :: rest)
    | _, _ => none

/-- Insert amount `q` for date `d` into a key-sorted grouped series, adding
into the existing entry when the date is already present. -/
def insertAdd (d : Date) (q : ℚ) : List (Date × ℚ) → List (Date × ℚ)
  | [] => [(d, q)]
  | (d', q') :: rest =>
    if dateKey d < dateKey d' then (d, q) :: (d', q') :: rest
    else if dateKey d = dateKey d' then (d', q' + q) :: rest
    else (d', q') :: insertAdd d q rest

/-- Models `df.groupby(record_date)[transaction_today_amt].sum().sort_index()`:
one entry per distinct date key, each the sum of that date's amounts, sorted
ascending by date key. -/
def groupSum : List (Date × ℚ) → List (Date × ℚ)
  | [] => []
  | (d, q) :: rest => insertAdd d q (groupSum rest)

/-- The aggregation step (lines 37-43 of the script): build the frame,
parse the date column, coerce the amount column, group-sum by date. On an
empty record list the column selection raises (`emptyData`); on a malformed
date `pd.to_datetime` raises (`badDate`). -/
def aggregate (records : List RawRecord) : Except AggError (List (Date × ℚ)) :=
  if records.isEmpty then .error .emptyData
  else
    match parseRows records with
    | none => .error .badDate
    | some rows => .ok (groupSum rows)

/-- `page[size]` request parameter. -/
def PAGE_SIZE : Nat := 500

/-- Fuel bound for the embedded `while True` pagination loop. -/
def FETCH_FUEL : Nat := 1000000

/-- The pagination loop (lines 22-34): request page `page`, stop on an empty
`data` array, append the chunk, stop when the chunk is shorter than the page
size, else continue with the next page. Returns the accumulated records and
the number of requests issued. -/
def fetchLoop (server : Nat → List RawRecord) : Nat → Nat → List RawRecord → List RawRecord × Nat
  | 0, _, acc => (acc, 0)
  | fuel + 1, page, acc =>
    let chunk := server page
    if chunk.isEmpty then (acc, 1)
    else if chunk.length < PAGE_SIZE then (acc ++ chunk, 1)
    else
      let r := fetchLoop server fuel (page + 1) (acc ++ chunk)
      (r.1, r.2 + 1)

/-- Run the pagination loop from page 1 with an empty accumulator. -/
def fetchData (server : Nat → List RawRecord) : List RawRecord × Nat :=
  fetchLoop server FETCH_FUEL 1 []

/-- Lookup of `daily.loc[today]`, guarded by `today in daily.index`:
`none` when the date has no entry. -/
def seriesLookup (d : Date) : List (Date × ℚ) → Option ℚ
  | [] => none
  | (d', v) :: rest => if d' = d then some v else seriesLookup d rest

/-- Lines 47-51: today's value is the series entry at the current date,
`None` when absent. -/
def today_value (series : List (Date × ℚ)) (today : Date) : Option ℚ :=
  seriesLookup today series

/-- An apostrophe, kept out of string literals. -/
def apos : String := String.singleton (Char.ofNat 39)

/-- Zero-padded two-digit rendering of a month or day number. -/
def pad2 (n : Nat) : String :=
  if n < 10 then "0" ++ toString n else toString n

/-- Zero-padded four-digit rendering of a year number. -/
def pad4 (n : Nat) : String :=
  if n < 10 then "000" ++ toString n
  else if n < 100 then "00" ++ toString n
  else if n < 1000 then "0" ++ toString n
  else toString n

/-- Models `today.strftime(%Y-%m-%d)`. -/
def dateToString (d : Date) : String :=
  pad4 d.year ++ "-" ++ pad2 d.month ++ "-" ++ pad2 d.day

/-- The warning printed when no entry exists for the current date (line 51);
empty list of lines otherwise. -/
def todayWarnings (series : List (Date × ℚ)) (today : Date) : List String :=
  match seriesLookup today series with
  | none => ["Warning: No data found for today " ++ dateToString today ++ "."]
  | some _ => []

/-- Lines 54-55: month-to-date sum, filtering the series by
`index >= Timestamp(year, month, 1)` and `index <= today`; `Timestamp`
comparison is modelled by `dateKey` order. -/
def mtd (series : List (Date × ℚ)) (today : Date) : ℚ :=
  ((series.filter (fun p =>
      decide (dateKey ⟨today.year, today.month, 1⟩ ≤ dateKey p.1) &&
      decide (dateKey p.1 ≤ dateKey today))).map Prod.snd).sum

/-- Lines 58-59: year-to-date sum, filtering the series by
`index >= Timestamp(year, 1, 1)` and `index <= today`. -/
def ytd (series : List (Date × ℚ)) (today : Date) : ℚ :=
  ((series.filter (fun p =>
      decide (dateKey ⟨today.year, 1, 1⟩ ≤ dateKey p.1) &&
      decide (dateKey p.1 ≤ dateKey today))).map Prod.snd).sum

/-- Line 62: `(today_value / ytd * 100) if today_value is not None and
ytd > 0 else None`. -/
def pct_today_ytd (series : List (Date × ℚ)) (today : Date) : Option ℚ :=
  match today_value series today with
  | some tv => if ytd series today > 0 then some (tv / ytd series today * 100) else none
  | none => none

/-- Line 63: `(mtd / ytd * 100) if ytd > 0 else None`. -/
def pct_mtd_ytd (series : List (Date × ℚ)) (today : Date) : Option ℚ :=
  if ytd series today > 0 then some (mtd series today / ytd series today * 100) else none

/-- Value of one observation of the percent-change series: float division
can leave the finite range, so rationals are extended with the three
non-finite IEEE values a pandas float column can hold. -/
inductive PF where
  | fin (q : ℚ) : PF
  | posInf : PF
  | negInf : PF
  | nan : PF
deriving DecidableEq, Repr

/-- IEEE-style division of finite floats: a zero denominator yields a
signed infinity, or `NaN` for `0 / 0`. -/
def fdiv (a b : ℚ) : PF :=
  if b = 0 then (if 0 < a then .posInf else if a < 0 then .negInf else .nan)
  else .fin (a / b)

/-- Multiplication of a float observation by the scalar 100: the
non-finite values absorb it. -/
def pfMul100 : PF → PF
  | .fin q => .fin (q * 100)
  | .posInf => .posInf
  | .negInf => .negInf
  | .nan => .nan

/-- Tail of the percent-change series: `prev` is the previous day's total,
each entry becomes `(value - prev) / prev * 100`. -/
def pctChangeTail (prev : ℚ) : List (Date × ℚ) → List (Date × PF)
  | [] => []
  | (d, v) :: rest => (d, pfMul100 (fdiv (v - prev) prev)) :: pctChangeTail v rest

/-- Line 66: `daily.pct_change() * 100` — same date index as the series, the
first observation is `NaN` (no previous day), every later observation is the
relative change against the immediately preceding entry, times 100. -/
def pct_change : List (Date × ℚ) → List (Date × PF)
  | [] => []
  | (d, v) :: rest => (d, .nan) :: pctChangeTail v rest

/-- Digit grouping of `{:,}`: insert a comma every three digits, counting
from the right. `ds` is the digit string of a nonnegative integer. -/
def commaGroup (ds : List Char) : List Char :=
  (((ds.reverse.enum).map (fun ic =>
      if ic.1 % 3 = 0 ∧ ic.1 ≠ 0 then [',', ic.2] else [ic.2])).flatten).reverse

/-- Models the Python format `{:,.0f}`: round to an integer and group the
digits of its absolute value, with a leading minus sign if negative. -/
def formatMoney (q : ℚ) : String :=
  let n : ℤ := round q
  let digits := (toString n.natAbs).data
  (if n < 0 then "-" else "") ++ String.mk (commaGroup digits)

/-- Models the Python format `{:.3f}`: round at the third decimal and print
three decimal places. -/
def format3 (q : ℚ) : String :=
  let n : ℤ := round (q * 1000)
  let sign := if n < 0 then "-" else ""
  let whole := toString (n.natAbs / 1000)
  let frac := n.natAbs % 1000
  let fracStr :=
    if frac < 10 then "00" ++ toString frac
    else if frac < 100 then "0" ++ toString frac
    else toString frac
  sign ++ whole ++ "." ++ fracStr

/-- Line 71: today's line of the report — a formatted amount, or the
explicit not-available message when today's value is `None`. -/
def todayLine (v : Option ℚ) : String :=
  match v with
  | some tv => "Today" ++ apos ++ "s value:     $" ++ formatMoney tv
  | none => "Today" ++ apos ++ "s value:     Data not available."

/-- Line 74: the `% Today / YTD` report line — formatted percentage or the
N/A marker. -/
def pctTodayLine (p : Option ℚ) : String :=
  match p with
  | some q => "% Today / YTD:     " ++ format3 q ++ "%"
  | none => "% Today / YTD:     N/A"

/-- Line 75: the `% Month / YTD` report line — formatted percentage or the
N/A marker. -/
def pctMtdLine (p : Option ℚ) : String :=
  match p with
  | some q => "% Month / YTD:     " ++ format3 q ++ "%"
  | none => "% Month / YTD:     N/A"

/-- Lines 69-75: the seven printed report lines. -/
def report (series : List (Date × ℚ)) (today : Date) : List String :=
  [ "Operating Cash Deposits & Withdrawals (total, all categories):",
    "Data up to: " ++ dateToString today,
    todayLine (today_value series today),
    "Month-to-date:     $" ++ formatMoney (mtd series today),
    "Year-to-date:      $" ++ formatMoney (ytd series today),
    pctTodayLine (pct_today_ytd series today),
    pctMtdLine (pct_mtd_ytd series today) ]

/-- Specification-side sum of the series values whose date lies in the
inclusive calendar interval `[lo, hi]`, stated with the lexicographic
calendar order rather than the `Timestamp` key. -/
def sumInRange (lo hi : Date) (series : List (Date × ℚ)) : ℚ :=
  (series.map (fun p => if lo.lexLe p.1 ∧ p.1.lexLe hi then p.2 else 0)).sum

/-- Sum of the entries of a series whose date has key `k`. -/
def sumKey (k : Nat) (l : List (Date × ℚ)) : ℚ :=
  ((l.filter (fun p => decide (dateKey p.1 = k))).map Prod.snd).sum

/-- A sample record used to exercise the pagination loop. -/
def sampleRecord : RawRecord := ⟨"2025-01-01", "1"⟩

/-- A server answering with pages of sizes 500, 500, 237 and then nothing. -/
def pageServer : Nat → List RawRecord := fun p =>
  if p = 1 then List.replicate 500 sampleRecord
  else if p = 2 then List.replicate 500 sampleRecord
  else if p = 3 then List.replicate 237 sampleRecord
  else []

/- ————————————————————————— theorems ————————————————————————— -/

theorem pctChangeTail_map_fst (prev : ℚ) (l : List (Date × ℚ)) :
    (pctChangeTail prev l).map Prod.fst = l.map Prod.fst := by
  induction l generalizing prev with
  | nil => rfl
  | cons p rest ih =>
    obtain ⟨d, v⟩ := p
    simp [pctChangeTail, ih]

theorem pct_change_map_fst (s : List (Date × ℚ)) :
    (pct_change s).map Prod.fst = s.map Prod.fst := by
  cases s with
  | nil => rfl
  | cons p rest =>
    obtain ⟨d, v⟩ := p
    simp [pct_change, pctChangeTail_map_fst]

theorem pctChangeTail_getElem_zero (prev : ℚ) (l : List (Date × ℚ)) (p : Date × ℚ)
    (h : l[0]? = some p) :
    (pctChangeTail prev l)[0]? = some (p.1, pfMul100 (fdiv (p.2 - prev) prev)) := by
  cases l with
  | nil => simp at h
  | cons q rest =>
    obtain ⟨d, v⟩ := q
    simp only [List.getElem?_cons_zero, Option.some.injEq] at h
    simp [pctChangeTail, ← h]

theorem pctChangeTail_getElem_succ (l : List (Date × ℚ)) (prev : ℚ) (i : Nat)
    (p p' : Date × ℚ) (h : l[i]? = some p) (h' : l[i + 1]? = some p') :
    (pctChangeTail prev l)[i + 1]? = some (p'.1, pfMul100 (fdiv (p'.2 - p.2) p.2)) := by
  induction l generalizing prev i with
  | nil => simp at h
  | cons q rest ih =>
    obtain ⟨d, v⟩ := q
    cases i with
    | zero =>
      simp only [List.getElem?_cons_zero, Option.some.injEq] at h
      simp only [List.getElem?_cons_succ] at h'
      have hz := pctChangeTail_getElem_zero v rest p' h'
      simp [pctChangeTail, hz, ← h]
    | succ j =>
      simp only [List.getElem?_cons_succ] at h h'
      simpa [pctChangeTail] using ih v j h h'

theorem pct_change_getElem_succ (s : List (Date × ℚ)) (i : Nat) (p p' : Date × ℚ)
    (h : s[i]? = some p) (h' : s[i + 1]? = some p') :
    (pct_change s)[i + 1]? = some (p'.1, pfMul100 (fdiv (p'.2 - p.2) p.2)) := by
  cases s with
  | nil => simp at h
  | cons q rest =>
    obtain ⟨d, v⟩ := q
    cases i with
    | zero =>
      simp only [List.getElem?_cons_zero, Option.some.injEq] at h
      simp only [List.getElem?_cons_succ] at h'
      have hz := pctChangeTail_getElem_zero v rest p' h'
      simp [pct_change, hz, ← h]
    | succ j =>
      simp only [List.getElem?_cons_succ] at h h'
      simpa [pct_change] using pctChangeTail_getElem_succ rest v j p p' h h'

/-- C5: the percent-change series carries the same date index as the daily
series; the first observation is undefined (`NaN`); every later observation
equals `(today_total - prev_total) / prev_total * 100` computed with float
division (in particular a finite rational whenever the previous total is
nonzero); and on the daily series Jan1 = 100, Jan2 = 150 the Jan2
observation is exactly 50. -/
theorem c5_pct_change_day_over_day (s : List (Date × ℚ)) :
    (pct_change s).map Prod.fst = s.map Prod.fst
    ∧ (∀ d v rest, s = (d, v) :: rest → (pct_change s)[0]? = some (d, PF.nan))
    ∧ (∀ i p p', s[i]? = some p → s[i + 1]? = some p' →
        (pct_change s)[i + 1]? = some (p'.1, pfMul100 (fdiv (p'.2 - p.2) p.2)))
    ∧ (∀ i p p', s[i]? = some p → s[i + 1]? = some p' → p.2 ≠ 0 →
        (pct_change s)[i + 1]? = some (p'.1, PF.fin ((p'.2 - p.2) / p.2 * 100)))
    ∧ pct_change [((⟨2025, 1, 1⟩ : Date), (100 : ℚ)), (⟨2025, 1, 2⟩, 150)] =
        [(⟨2025, 1, 1⟩, PF.nan), (⟨2025, 1, 2⟩, PF.fin 50)] := by
  refine ⟨pct_change_map_fst s, ?_, ?_, ?_, ?_⟩
  · rintro d v rest rfl
    simp [pct_change]
  · exact fun i p p' h h' => pct_change_getElem_succ s i p p' h h'
  · intro i p p' h h' hp
    rw [pct_change_getElem_succ s i p p' h h']
    simp [fdiv, pfMul100, hp]
  · norm_num [pct_change, pctChangeTail, fdiv, pfMul100]

/-- C5 witness: the concrete two-day series from the spec example. -/
theorem c5_witness :
    (pct_change [((⟨2025, 1, 1⟩ : Date), (100 : ℚ)), (⟨2025, 1, 2⟩, 150)])[1]? =
      some (⟨2025, 1, 2⟩, PF.fin 50) := by
  rw [(c5_pct_change_day_over_day
        [(⟨2025, 1, 1⟩, 100), (⟨2025, 1, 2⟩, 150)]).2.2.2.1 0
      (⟨2025, 1, 1⟩, 100) (⟨2025, 1, 2⟩, 150) rfl rfl (by norm_num)]
  norm_num

/-- C10: a zero daily total followed by a later date makes the successor's
percent-change observation non-finite (a signed infinity or `NaN`), never a
finite number — the division by the zero previous total is unguarded. -/
theorem c10_zero_previous_total_not_finite (s : List (Date × ℚ)) (i : Nat)
    (d d' : Date) (v' : ℚ) (h : s[i]? = some (d, 0)) (h' : s[i + 1]? = some (d', v')) :
    ∃ pf, (pct_change s)[i + 1]? = some (d', pf) ∧ ∀ q : ℚ, pf ≠ PF.fin q := by
  refine ⟨pfMul100 (fdiv (v' - 0) 0), pct_change_getElem_succ s i (d, 0) (d', v') h h', ?_⟩
  intro q
  have hd : fdiv (v' - 0) 0 = if 0 < v' then PF.posInf else if v' < 0 then PF.negInf else PF.nan := by
    simp [fdiv]
  rw [hd]
  rcases lt_trichotomy v' 0 with hv | hv | hv
  · simp [not_lt.2 (le_of_lt hv), hv, pfMul100]
  · simp [hv, pfMul100]
  · simp [hv, pfMul100]

/-- C10 witness: daily totals 0 then 5; the second observation is non-finite. -/
theorem c10_witness :
    ∃ pf, (pct_change [((⟨2025, 1, 1⟩ : Date), (0 : ℚ)), (⟨2025, 1, 2⟩, 5)])[1]? =
      some (⟨2025, 1, 2⟩, pf) ∧ ∀ q : ℚ, pf ≠ PF.fin q :=
  c10_zero_previous_total_not_finite _ 0 ⟨2025, 1, 1⟩ ⟨2025, 1, 2⟩ 5 rfl rfl

/-- C9: when the fetch accumulates zero records (first page empty, one
request), the aggregation step raises (`KeyError` selecting `record_date`
from the empty frame) instead of producing an empty daily series. -/
theorem c9_empty_fetch_aggregation_raises :
    fetchData (fun _ => []) = ([], 1) ∧
    aggregate (fetchData (fun _ => [])).1 = Except.error AggError.emptyData := by
  constructor <;> rfl

theorem fetchLoop_full_page (server : Nat → List RawRecord) (fuel page : Nat)
    (acc : List RawRecord) (h : (server page).length = PAGE_SIZE) :
    fetchLoop server (fuel + 1) page acc =
      ((fetchLoop server fuel (page + 1) (acc ++ server page)).1,
       (fetchLoop server fuel (page + 1) (acc ++ server page)).2 + 1) := by
  have hne : (server page).isEmpty = false := by
    rw [List.isEmpty_eq_false_iff_exists_mem]
    cases hsp : server page with
    | nil => rw [hsp] at h; simp [PAGE_SIZE] at h
    | cons a l => exact ⟨a, by simp [hsp]⟩
  simp [fetchLoop, hne, h]

theorem fetchLoop_short_page (server : Nat → List RawRecord) (fuel page : Nat)
    (acc : List RawRecord) (h0 : server page ≠ [])
    (h : (server page).length < PAGE_SIZE) :
    fetchLoop server (fuel + 1) page acc = (acc ++ server page, 1) := by
  have hne : (server page).isEmpty = false := by
    simpa [List.isEmpty_iff] using h0
  simp [fetchLoop, hne, h]

theorem fetchLoop_empty_page (server : Nat → List RawRecord) (fuel page : Nat)
    (acc : List RawRecord) (h : server page = []) :
    fetchLoop server (fuel + 1) page acc = (acc, 1) := by
  simp [fetchLoop, h]

/-- C2 (amended): with pages of sizes 500, 500, 237 the loop issues exactly
3 requests and accumulates the concatenation of the three pages; with an
empty first page it issues exactly 1 request and accumulates nothing — but
the subsequent aggregation of the empty record list raises `emptyData`
instead of producing an empty daily series. (`fuel ≥ 3` lets the embedded
`while True` loop run to its natural exit.) -/
theorem c2_pagination (server : Nat → List RawRecord)
    (h1 : (server 1).length = 500) (h2 : (server 2).length = 500)
    (h3 : (server 3).length = 237) (fuel : Nat) (hf : 3 ≤ fuel) :
    fetchLoop server fuel 1 [] = (server 1 ++ server 2 ++ server 3, 3) ∧
    (∀ server0 : Nat → List RawRecord, server0 1 = [] →
      fetchLoop server0 fuel 1 [] = ([], 1) ∧
      aggregate [] = Except.error AggError.emptyData) := by
  obtain ⟨k, rfl⟩ : ∃ k, fuel = k + 1 + 1 + 1 := ⟨fuel - 3, by omega⟩
  constructor
  · rw [fetchLoop_full_page server _ 1 [] (by rw [h1]; rfl)]
    rw [fetchLoop_full_page server _ 2 ([] ++ server 1) (by rw [h2]; rfl)]
    rw [fetchLoop_short_page server _ 3 ([] ++ server 1 ++ server 2)
      (by intro hc; rw [hc] at h3; simp at h3) (by rw [h3]; simp [PAGE_SIZE])]
    simp
  · intro server0 h0
    exact ⟨fetchLoop_empty_page server0 _ 1 [] h0, rfl⟩

/-- C2 witness: a concrete server with pages of sizes 500, 500, 237. -/
theorem c2_witness :
    fetchLoop pageServer 3 1 [] = (pageServer 1 ++ pageServer 2 ++ pageServer 3, 3) :=
  (c2_pagination pageServer
    (by norm_num [pageServer, List.length_replicate])
    (by norm_num [pageServer, List.length_replicate])
    (by norm_num [pageServer, List.length_replicate])
    3 (by omega)).1

/-- C2 counterexample: for a server whose first page is empty the fetch
does issue exactly 1 request, but the resulting daily series is not the
empty series — the aggregation step errors out on the empty record list. -/
theorem c2_counterexample :
    fetchData (fun _ => []) = ([], 1) ∧
    aggregate (fetchData (fun _ => [])).1 ≠ Except.ok ([] : List (Date × ℚ)) := by
  refine ⟨rfl, ?_⟩
  intro h
  have : Except.error AggError.emptyData = Except.ok ([] : List (Date × ℚ)) := h
  cases this

theorem daysInMonth_le31 (y m : Nat) : daysInMonth y m ≤ 31 := by
  unfold daysInMonth
  split
  · split <;> omega
  · split <;> omega

theorem one_le_daysInMonth (y m : Nat) : 1 ≤ daysInMonth y m := by
  unfold daysInMonth
  split
  · split <;> omega
  · split <;> omega

theorem dateKey_le_iff {a b : Date} (ha : a.valid) (hb : b.valid) :
    dateKey a ≤ dateKey b ↔ a.lexLe b := by
  obtain ⟨h1, h2, h3, h4⟩ := ha
  obtain ⟨h5, h6, h7, h8⟩ := hb
  have l1 := daysInMonth_le31 a.year a.month
  have l2 := daysInMonth_le31 b.year b.month
  unfold dateKey Date.lexLe
  omega

theorem dateKey_lt_iff {a b : Date} (ha : a.valid) (hb : b.valid) :
    dateKey a < dateKey b ↔ a.lexLt b := by
  obtain ⟨h1, h2, h3, h4⟩ := ha
  obtain ⟨h5, h6, h7, h8⟩ := hb
  have l1 := daysInMonth_le31 a.year a.month
  have l2 := daysInMonth_le31 b.year b.month
  unfold dateKey Date.lexLt
  omega

theorem dateKey_inj {a b : Date} (ha : a.valid) (hb : b.valid)
    (h : dateKey a = dateKey b) : a = b := by
  obtain ⟨h1, h2, h3, h4⟩ := ha
  obtain ⟨h5, h6, h7, h8⟩ := hb
  have l1 := daysInMonth_le31 a.year a.month
  have l2 := daysInMonth_le31 b.year b.month
  unfold dateKey at h
  have hy : a.year = b.year := by omega
  have hm : a.month = b.month := by omega
  have hd : a.day = b.day := by omega
  cases a; cases b; simp_all

/-- C4: a nonpositive year-to-date sum makes both percentage fields the
unavailable marker (`None`), and the reporter renders both as `N/A` instead
of attempting a division. -/
theorem c4_nonpositive_ytd_na (series : List (Date × ℚ)) (today : Date)
    (h : ytd series today ≤ 0) :
    pct_today_ytd series today = none ∧ pct_mtd_ytd series today = none ∧
    pctTodayLine (pct_today_ytd series today) = "% Today / YTD:     N/A" ∧
    pctMtdLine (pct_mtd_ytd series today) = "% Month / YTD:     N/A" := by
  have hy : ¬ ytd series today > 0 := not_lt.2 h
  have h1 : pct_today_ytd series today = none := by
    unfold pct_today_ytd
    cases today_value series today <;> simp [hy]
  have h2 : pct_mtd_ytd series today = none := by
    unfold pct_mtd_ytd
    simp [hy]
  exact ⟨h1, h2, by rw [h1]; rfl, by rw [h2]; rfl⟩

/-- C4 witness: a one-day series summing to -5. -/
theorem c4_witness :
    pct_today_ytd [((⟨2025, 1, 1⟩ : Date), (-5 : ℚ))] ⟨2025, 1, 1⟩ = none ∧
    pct_mtd_ytd [((⟨2025, 1, 1⟩ : Date), (-5 : ℚ))] ⟨2025, 1, 1⟩ = none ∧
    pctTodayLine (pct_today_ytd [((⟨2025, 1, 1⟩ : Date), (-5 : ℚ))] ⟨2025, 1, 1⟩) =
      "% Today / YTD:     N/A" ∧
    pctMtdLine (pct_mtd_ytd [((⟨2025, 1, 1⟩ : Date), (-5 : ℚ))] ⟨2025, 1, 1⟩) =
      "% Month / YTD:     N/A" :=
  c4_nonpositive_ytd_na _ _ (by norm_num [ytd, dateKey])

/-- C8 counterexample: with a daily series summing to -5 on the single day
2025-01-01, the year-to-date sum is negative and nonzero and today's value
exists, yet both percentage fields are the unavailable marker — the code
guards `ytd > 0`, so a negative denominator does not produce a signed
percentage. -/
theorem c8_counterexample :
    ytd [((⟨2025, 1, 1⟩ : Date), (-5 : ℚ))] ⟨2025, 1, 1⟩ < 0 ∧
    today_value [((⟨2025, 1, 1⟩ : Date), (-5 : ℚ))] ⟨2025, 1, 1⟩ ≠ none ∧
    pct_today_ytd [((⟨2025, 1, 1⟩ : Date), (-5 : ℚ))] ⟨2025, 1, 1⟩ = none ∧
    pct_mtd_ytd [((⟨2025, 1, 1⟩ : Date), (-5 : ℚ))] ⟨2025, 1, 1⟩ = none := by
  have hy : ytd [((⟨2025, 1, 1⟩ : Date), (-5 : ℚ))] ⟨2025, 1, 1⟩ < 0 := by
    norm_num [ytd, dateKey]
  refine ⟨hy, ?_, ?_, ?_⟩
  · simp [today_value, seriesLookup]
  · simp [pct_today_ytd, today_value, seriesLookup, not_lt.2 (le_of_lt hy)]
  · simp [pct_mtd_ytd, not_lt.2 (le_of_lt hy)]

/-- C8 (amended): a negative year-to-date sum fails the `ytd > 0` guard
exactly like a zero one, so both percentage fields are the unavailable
marker; no signed percentage is produced for a negative-but-nonzero
denominator. -/
theorem c8_negative_ytd_na (series : List (Date × ℚ)) (today : Date)
    (h : ytd series today < 0) :
    pct_today_ytd series today = none ∧ pct_mtd_ytd series today = none := by
  have hy : ¬ ytd series today > 0 := not_lt.2 (le_of_lt h)
  constructor
  · unfold pct_today_ytd
    cases today_value series today <;> simp [hy]
  · unfold pct_mtd_ytd
    simp [hy]

/-- C8 witness: a one-day series summing to -7. -/
theorem c8_witness :
    pct_today_ytd [((⟨2025, 1, 1⟩ : Date), (-7 : ℚ))] ⟨2025, 1, 1⟩ = none ∧
    pct_mtd_ytd [((⟨2025, 1, 1⟩ : Date), (-7 : ℚ))] ⟨2025, 1, 1⟩ = none :=
  c8_negative_ytd_na _ _ (by norm_num [ytd, dateKey])

theorem seriesLookup_eq_none_of_not_mem {series : List (Date × ℚ)} {d : Date}
    (h : d ∉ series.map Prod.fst) : seriesLookup d series = none := by
  induction series with
  | nil => rfl
  | cons p rest ih =>
    obtain ⟨d', v⟩ := p
    simp only [List.map_cons, List.mem_cons] at h
    push_neg at h
    have hne : d' ≠ d := fun hc => h.1 hc.symm
    simp only [seriesLookup]
    rw [if_neg hne]
    exact ih h.2

/-- C6: when the current date is absent from the daily series, today's
value is the unavailable marker, exactly one warning line is emitted, the
run continues (the summarizer is total), and the third report line is the
explicit not-available message instead of a formatted amount. -/
theorem c6_missing_today (series : List (Date × ℚ)) (today : Date)
    (h : today ∉ series.map Prod.fst) :
    today_value series today = none ∧
    todayWarnings series today =
      ["Warning: No data found for today " ++ dateToString today ++ "."] ∧
    (report series today)[2]? =
      some ("Today" ++ apos ++ "s value:     Data not available.") := by
  have hl : seriesLookup today series = none := seriesLookup_eq_none_of_not_mem h
  refine ⟨hl, ?_, ?_⟩
  · unfold todayWarnings
    rw [hl]
  · simp [report, todayLine, today_value, hl]

/-- C6 witness: a series holding only 2025-01-01, queried on 2025-01-02. -/
theorem c6_witness :
    today_value [((⟨2025, 1, 1⟩ : Date), (5 : ℚ))] ⟨2025, 1, 2⟩ = none ∧
    todayWarnings [((⟨2025, 1, 1⟩ : Date), (5 : ℚ))] ⟨2025, 1, 2⟩ =
      ["Warning: No data found for today " ++ dateToString ⟨2025, 1, 2⟩ ++ "."] ∧
    (report [((⟨2025, 1, 1⟩ : Date), (5 : ℚ))] ⟨2025, 1, 2⟩)[2]? =
      some ("Today" ++ apos ++ "s value:     Data not available.") :=
  c6_missing_today _ _ (by decide)

theorem filter_map_sum_eq (P : Date × ℚ → Bool) (l : List (Date × ℚ)) :
    ((l.filter P).map Prod.snd).sum = (l.map (fun p => if P p then p.2 else 0)).sum := by
  induction l with
  | nil => rfl
  | cons p rest ih =>
    cases hp : P p
    · simp [List.filter_cons, hp, ih]
    · simp [List.filter_cons, hp, ih]

/-- C3: over a series of valid calendar dates, the year-to-date sum
computed by filtering on `Timestamp` keys equals the sum of the values
whose date lies in the inclusive calendar interval from January 1 of the
current year to today, and the month-to-date sum likewise for the interval
from the first of the current month to today. -/
theorem c3_mtd_ytd_interval (series : List (Date × ℚ)) (today : Date)
    (hs : ∀ p ∈ series, (Prod.fst p).valid) (ht : today.valid) :
    ytd series today = sumInRange ⟨today.year, 1, 1⟩ today series ∧
    mtd series today = sumInRange ⟨today.year, today.month, 1⟩ today series := by
  have hjan : (⟨today.year, 1, 1⟩ : Date).valid :=
    ⟨le_refl 1, show (1 : Nat) ≤ 12 by omega, le_refl 1, one_le_daysInMonth today.year 1⟩
  have hfom : (⟨today.year, today.month, 1⟩ : Date).valid := by
    obtain ⟨t1, t2, t3, t4⟩ := ht
    exact ⟨t1, t2, le_refl 1, one_le_daysInMonth today.year today.month⟩
  constructor
  · unfold ytd sumInRange
    rw [filter_map_sum_eq]
    refine congrArg List.sum (List.map_congr_left ?_)
    intro p hp
    have hv := hs p hp
    have e1 := dateKey_le_iff hjan hv
    have e2 := dateKey_le_iff hv ht
    simp only [Bool.and_eq_true, decide_eq_true_eq]
    exact if_congr (and_congr e1 e2) rfl rfl
  · unfold mtd sumInRange
    rw [filter_map_sum_eq]
    refine congrArg List.sum (List.map_congr_left ?_)
    intro p hp
    have hv := hs p hp
    have e1 := dateKey_le_iff hfom hv
    have e2 := dateKey_le_iff hv ht
    simp only [Bool.and_eq_true, decide_eq_true_eq]
    exact if_congr (and_congr e1 e2) rfl rfl

/-- C3 witness: a two-day January series with today = 2025-01-02. -/
theorem c3_witness :
    ytd [((⟨2025, 1, 1⟩ : Date), (0 : ℚ)), (⟨2025, 1, 2⟩, 7)] ⟨2025, 1, 2⟩ =
      sumInRange ⟨2025, 1, 1⟩ ⟨2025, 1, 2⟩
        [((⟨2025, 1, 1⟩ : Date), (0 : ℚ)), (⟨2025, 1, 2⟩, 7)] ∧
    mtd [((⟨2025, 1, 1⟩ : Date), (0 : ℚ)), (⟨2025, 1, 2⟩, 7)] ⟨2025, 1, 2⟩ =
      sumInRange ⟨2025, 1, 1⟩ ⟨2025, 1, 2⟩
        [((⟨2025, 1, 1⟩ : Date), (0 : ℚ)), (⟨2025, 1, 2⟩, 7)] :=
  c3_mtd_ytd_interval _ _ (by decide) (by decide)

theorem parseRows_eq_none_of_bad {records : List RawRecord} {r : RawRecord}
    (hr : r ∈ records) (hbad : parseDate r.record_date = none) :
    parseRows records = none := by
  induction records with
  | nil => simp at hr
  | cons r0 rs ih =>
    rcases List.mem_cons.1 hr with rfl | hmem
    · simp only [parseRows, hbad]
    · simp only [parseRows, ih hmem]
      cases parseDate r0.record_date <;> rfl

theorem parseRows_isSome_of_all {records : List RawRecord}
    (h : ∀ r ∈ records, (parseDate r.record_date).isSome) :
    ∃ rows, parseRows records = some rows := by
  induction records with
  | nil => exact ⟨[], rfl⟩
  | cons r rs ih =>
    obtain ⟨rows, hrows⟩ := ih (fun x hx => h x (List.mem_cons_of_mem _ hx))
    have hr := h r (List.mem_cons_self r rs)
    cases hpd : parseDate r.record_date with
    | none => rw [hpd] at hr; simp at hr
    | some d =>
      refine ⟨(d, amtOrZero r.transaction_today_amt) :: rows, ?_⟩
      simp only [parseRows, hpd, hrows]

/-- C7: a record list containing one unparseable `record_date` makes the
aggregation step raise (the date column conversion is unguarded), while a
record list of parseable dates always aggregates successfully no matter how
malformed its amount strings are. -/
theorem c7_bad_date_fails_bad_amount_never (records : List RawRecord) :
    (∀ r ∈ records, parseDate r.record_date = none →
      aggregate records = Except.error AggError.badDate) ∧
    (records ≠ [] → (∀ r ∈ records, (parseDate r.record_date).isSome) →
      ∃ s, aggregate records = Except.ok s) := by
  constructor
  · intro r hr hbad
    have hne : records.isEmpty = false := by
      cases records
      · simp at hr
      · rfl
    unfold aggregate
    rw [hne, parseRows_eq_none_of_bad hr hbad]
    rfl
  · intro hne hall
    obtain ⟨rows, hrows⟩ := parseRows_isSome_of_all hall
    have hne2 : records.isEmpty = false := by
      cases records
      · simp at hne
      · rfl
    refine ⟨groupSum rows, ?_⟩
    unfold aggregate
    rw [hne2, hrows]
    rfl

/-- C7 witness: one malformed date fails; a parseable date with a malformed
amount succeeds. -/
theorem c7_witness :
    aggregate [⟨"bad-date", "5"⟩] = Except.error AggError.badDate ∧
    ∃ s, aggregate [⟨"2025-01-03", "oops"⟩] = Except.ok s := by
  constructor
  · exact (c7_bad_date_fails_bad_amount_never _).1 ⟨"bad-date", "5"⟩ (by simp) rfl
  · exact (c7_bad_date_fails_bad_amount_never _).2 (by simp)
      (by intro r hr; simp only [List.mem_singleton] at hr; subst hr; rfl)

theorem sumKey_cons (k : Nat) (d : Date) (q : ℚ) (l : List (Date × ℚ)) :
    sumKey k ((d, q) :: l) = (if dateKey d = k then q else 0) + sumKey k l := by
  unfold sumKey
  by_cases h : dateKey d = k
  · simp [List.filter_cons, h]
  · simp [List.filter_cons, h]

theorem fst_mem_insertAdd {d : Date} {q : ℚ} {l : List (Date × ℚ)} {x : Date × ℚ}
    (hx : x ∈ insertAdd d q l) : x.1 = d ∨ ∃ y ∈ l, x.1 = y.1 := by
  induction l with
  | nil =>
    simp only [insertAdd, List.mem_singleton] at hx
    left
    rw [hx]
  | cons p rest ih =>
    obtain ⟨d', q'⟩ := p
    simp only [insertAdd] at hx
    by_cases hlt : dateKey d < dateKey d'
    · rw [if_pos hlt] at hx
      rcases List.mem_cons.1 hx with rfl | hx2
      · left; rfl
      · rcases List.mem_cons.1 hx2 with rfl | hx3
        · right; exact ⟨(d', q'), List.mem_cons_self _ _, rfl⟩
        · right; exact ⟨x, List.mem_cons_of_mem _ hx3, rfl⟩
    · rw [if_neg hlt] at hx
      by_cases heq : dateKey d = dateKey d'
      · rw [if_pos heq] at hx
        rcases List.mem_cons.1 hx with rfl | hx2
        · right; exact ⟨(d', q'), List.mem_cons_self _ _, rfl⟩
        · right; exact ⟨x, List.mem_cons_of_mem _ hx2, rfl⟩
      · rw [if_neg heq] at hx
        rcases List.mem_cons.1 hx with rfl | hx2
        · right; exact ⟨(d', q'), List.mem_cons_self _ _, rfl⟩
        · rcases ih hx2 with h | ⟨y, hy, hxy⟩
          · left; exact h
          · right; exact ⟨y, List.mem_cons_of_mem _ hy, hxy⟩

theorem insertAdd_pairwise {d : Date} {q : ℚ} {l : List (Date × ℚ)}
    (hl : l.Pairwise (fun p r => dateKey p.1 < dateKey r.1)) :
    (insertAdd d q l).Pairwise (fun p r => dateKey p.1 < dateKey r.1) := by
  induction l with
  | nil => simp [insertAdd]
  | cons p rest ih =>
    obtain ⟨d', q'⟩ := p
    rw [List.pairwise_cons] at hl
    obtain ⟨h1, h2⟩ := hl
    simp only [insertAdd]
    by_cases hlt : dateKey d < dateKey d'
    · rw [if_pos hlt, List.pairwise_cons]
      constructor
      · intro x hx
        rcases List.mem_cons.1 hx with rfl | hx2
        · exact hlt
        · exact lt_trans hlt (h1 x hx2)
      · rw [List.pairwise_cons]
        exact ⟨h1, h2⟩
    · rw [if_neg hlt]
      by_cases heq : dateKey d = dateKey d'
      · rw [if_pos heq, List.pairwise_cons]
        exact ⟨fun x hx => h1 x hx, h2⟩
      · rw [if_neg heq, List.pairwise_cons]
        constructor
        · intro x hx
          rcases fst_mem_insertAdd hx with hxd | ⟨y, hy, hxy⟩
          · have hxk : dateKey x.1 = dateKey d := congrArg dateKey hxd
            show dateKey d' < dateKey x.1
            omega
          · have hyk : dateKey x.1 = dateKey y.1 := congrArg dateKey hxy
            have hk2 : dateKey d' < dateKey y.1 := h1 y hy
            show dateKey d' < dateKey x.1
            omega
        · exact ih h2

theorem sumKey_insertAdd (k : Nat) (d : Date) (q : ℚ) (l : List (Date × ℚ)) :
    sumKey k (insertAdd d q l) = (if dateKey d = k then q else 0) + sumKey k l := by
  induction l with
  | nil => simp only [insertAdd]; rw [sumKey_cons]
  | cons p rest ih =>
    obtain ⟨d', q'⟩ := p
    simp only [insertAdd]
    by_cases hlt : dateKey d < dateKey d'
    · rw [if_pos hlt, sumKey_cons]
    · rw [if_neg hlt]
      by_cases heq : dateKey d = dateKey d'
      · rw [if_pos heq, sumKey_cons, sumKey_cons, heq]
        by_cases hk : dateKey d' = k
        · rw [if_pos hk, if_pos hk, if_pos hk]; ring
        · rw [if_neg hk, if_neg hk, if_neg hk]; ring
      · rw [if_neg heq, sumKey_cons, ih, sumKey_cons]
        ring

theorem key_mem_insertAdd_iff (k : Nat) (d : Date) (q : ℚ) (l : List (Date × ℚ)) :
    k ∈ (insertAdd d q l).map (fun p => dateKey p.1) ↔
      k = dateKey d ∨ k ∈ l.map (fun p => dateKey p.1) := by
  induction l with
  | nil => simp [insertAdd]
  | cons p rest ih =>
    obtain ⟨d', q'⟩ := p
    simp only [insertAdd]
    by_cases hlt : dateKey d < dateKey d'
    · rw [if_pos hlt]
      simp only [List.map_cons, List.mem_cons]
    · rw [if_neg hlt]
      by_cases heq : dateKey d = dateKey d'
      · rw [if_pos heq]
        simp only [List.map_cons, List.mem_cons]
        rw [heq]
        exact or_self_left.symm
      · rw [if_neg heq]
        simp only [List.map_cons, List.mem_cons, ih]
        exact or_left_comm

theorem groupSum_pairwise (l : List (Date × ℚ)) :
    (groupSum l).Pairwise (fun p r => dateKey p.1 < dateKey r.1) := by
  induction l with
  | nil => simp [groupSum]
  | cons p rest ih =>
    obtain ⟨d, q⟩ := p
    exact insertAdd_pairwise ih

theorem sumKey_groupSum (k : Nat) (l : List (Date × ℚ)) :
    sumKey k (groupSum l) = sumKey k l := by
  induction l with
  | nil => rfl
  | cons p rest ih =>
    obtain ⟨d, q⟩ := p
    simp only [groupSum]
    rw [sumKey_insertAdd, ih, sumKey_cons]

theorem key_mem_groupSum_iff (k : Nat) (l : List (Date × ℚ)) :
    k ∈ (groupSum l).map (fun p => dateKey p.1) ↔ k ∈ l.map (fun p => dateKey p.1) := by
  induction l with
  | nil => simp [groupSum]
  | cons p rest ih =>
    obtain ⟨d, q⟩ := p
    simp only [groupSum]
    rw [key_mem_insertAdd_iff]
    simp only [List.map_cons, List.mem_cons, ih]

theorem fst_mem_groupSum {l : List (Date × ℚ)} {x : Date × ℚ} (hx : x ∈ groupSum l) :
    ∃ y ∈ l, x.1 = y.1 := by
  induction l generalizing x with
  | nil => simp [groupSum] at hx
  | cons p rest ih =>
    obtain ⟨d, q⟩ := p
    simp only [groupSum] at hx
    rcases fst_mem_insertAdd hx with h | ⟨y, hy, hxy⟩
    · exact ⟨(d, q), List.mem_cons_self _ _, h⟩
    · obtain ⟨z, hz, hyz⟩ := ih hy
      exact ⟨z, List.mem_cons_of_mem _ hz, hxy.trans hyz⟩

theorem sumKey_eq_zero_of_forall_lt {l : List (Date × ℚ)} {k : Nat}
    (h : ∀ x ∈ l, k < dateKey x.1) : sumKey k l = 0 := by
  induction l with
  | nil => rfl
  | cons p rest ih =>
    obtain ⟨d, q⟩ := p
    have h2 : k < dateKey d := h (d, q) (List.mem_cons_self _ _)
    rw [sumKey_cons, if_neg (by omega),
      ih (fun x hx => h x (List.mem_cons_of_mem _ hx))]
    ring

theorem mem_pairwise_sumKey {l : List (Date × ℚ)}
    (hl : l.Pairwise (fun p r => dateKey p.1 < dateKey r.1)) {d : Date} {v : ℚ}
    (h : (d, v) ∈ l) : sumKey (dateKey d) l = v := by
  induction l with
  | nil => simp at h
  | cons p rest ih =>
    obtain ⟨d', v'⟩ := p
    rw [List.pairwise_cons] at hl
    obtain ⟨h1, h2⟩ := hl
    rcases List.mem_cons.1 h with heq | hmem
    · obtain ⟨rfl, rfl⟩ : d = d' ∧ v = v' := by
        injection heq with e1 e2
        exact ⟨e1, e2⟩
      rw [sumKey_cons, if_pos rfl, sumKey_eq_zero_of_forall_lt (fun x hx => h1 x hx)]
      ring
    · have hlt : dateKey d' < dateKey d := h1 (d, v) hmem
      rw [sumKey_cons, if_neg (by omega), ih h2 hmem]
      ring

theorem mkValidDate_valid {y m dd : Nat} {d : Date} (h : mkValidDate y m dd = some d) :
    d.valid := by
  unfold mkValidDate at h
  split at h
  · next hc =>
    injection h with h2
    subst h2
    exact hc
  · simp at h

theorem parseDate_valid {s : String} {d : Date} (h : parseDate s = some d) : d.valid := by
  unfold parseDate at h
  split at h
  · split at h
    · exact mkValidDate_valid h
    · simp at h
  · simp at h

theorem parseRows_rows_valid {records : List RawRecord} {rows : List (Date × ℚ)}
    (h : parseRows records = some rows) : ∀ p ∈ rows, (Prod.fst p).valid := by
  induction records generalizing rows with
  | nil =>
    injection h with h2
    subst h2
    simp
  | cons r rs ih =>
    simp only [parseRows] at h
    cases hpd : parseDate r.record_date with
    | none => rw [hpd] at h; cases hpr : parseRows rs <;> rw [hpr] at h <;> simp at h
    | some d0 =>
      rw [hpd] at h
      cases hpr : parseRows rs with
      | none => rw [hpr] at h; simp at h
      | some rest =>
        rw [hpr] at h
        injection h with h2
        subst h2
        intro p hp
        rcases List.mem_cons.1 hp with rfl | hmem
        · exact parseDate_valid hpd
        · exact ih hpr p hmem

theorem parseRows_fst_mem {records : List RawRecord} {rows : List (Date × ℚ)}
    (h : parseRows records = some rows) :
    ∀ p ∈ rows, ∃ r ∈ records, parseDate r.record_date = some p.1 := by
  induction records generalizing rows with
  | nil =>
    injection h with h2
    subst h2
    simp
  | cons r rs ih =>
    simp only [parseRows] at h
    cases hpd : parseDate r.record_date with
    | none => rw [hpd] at h; cases hpr : parseRows rs <;> rw [hpr] at h <;> simp at h
    | some d0 =>
      rw [hpd] at h
      cases hpr : parseRows rs with
      | none => rw [hpr] at h; simp at h
      | some rest =>
        rw [hpr] at h
        injection h with h2
        subst h2
        intro p hp
        rcases List.mem_cons.1 hp with rfl | hmem
        · exact ⟨r, List.mem_cons_self _ _, hpd⟩
        · obtain ⟨r2, hr2, hr2d⟩ := ih hpr p hmem
          exact ⟨r2, List.mem_cons_of_mem _ hr2, hr2d⟩

theorem parseRows_mem_fst {records : List RawRecord} {rows : List (Date × ℚ)}
    (h : parseRows records = some rows) :
    ∀ r ∈ records, ∃ p ∈ rows, parseDate r.record_date = some p.1 := by
  induction records generalizing rows with
  | nil => simp
  | cons r rs ih =>
    simp only [parseRows] at h
    cases hpd : parseDate r.record_date with
    | none => rw [hpd] at h; cases hpr : parseRows rs <;> rw [hpr] at h <;> simp at h
    | some d0 =>
      rw [hpd] at h
      cases hpr : parseRows rs with
      | none => rw [hpr] at h; simp at h
      | some rest =>
        rw [hpr] at h
        injection h with h2
        subst h2
        intro r2 hr2
        rcases List.mem_cons.1 hr2 with rfl | hmem
        · exact ⟨(d0, amtOrZero r2.transaction_today_amt), List.mem_cons_self _ _, hpd⟩
        · obtain ⟨p, hp, hpd2⟩ := ih hpr r2 hmem
          exact ⟨p, List.mem_cons_of_mem _ hp, hpd2⟩

theorem parseRows_sumKey {records : List RawRecord} {rows : List (Date × ℚ)}
    (h : parseRows records = some rows) {d : Date} (hd : d.valid) :
    sumKey (dateKey d) rows =
      ((records.filter (fun r => decide (parseDate r.record_date = some d))).map
        (fun r => amtOrZero r.transaction_today_amt)).sum := by
  induction records generalizing rows with
  | nil =>
    injection h with h2
    subst h2
    rfl
  | cons r rs ih =>
    simp only [parseRows] at h
    cases hpd : parseDate r.record_date with
    | none => rw [hpd] at h; cases hpr : parseRows rs <;> rw [hpr] at h <;> simp at h
    | some d0 =>
      rw [hpd] at h
      cases hpr : parseRows rs with
      | none => rw [hpr] at h; simp at h
      | some rest =>
        rw [hpr] at h
        injection h with h2
        subst h2
        have hv0 : d0.valid := parseDate_valid hpd
        rw [sumKey_cons, List.filter_cons]
        by_cases hk : dateKey d0 = dateKey d
        · have hdd : d0 = d := dateKey_inj hv0 hd hk
          subst hdd
          rw [if_pos hk,
            if_pos (show decide (parseDate r.record_date = some d0) = true by
              rw [hpd]; simp)]
          simp only [List.map_cons, List.sum_cons]
          rw [ih hpr]
        · have hdd : ¬ parseDate r.record_date = some d := by
            rw [hpd]
            intro hc
            injection hc with hc2
            exact hk (congrArg dateKey hc2)
          rw [if_neg hk,
            if_neg (show ¬ decide (parseDate r.record_date = some d) = true by
              simp only [decide_eq_true_eq]; exact hdd),
            ih hpr]
          ring

theorem aggregate_ok_decomp {records : List RawRecord} {s : List (Date × ℚ)}
    (h : aggregate records = Except.ok s) :
    ∃ rows, parseRows records = some rows ∧ s = groupSum rows := by
  unfold aggregate at h
  split at h
  · simp at h
  · split at h
    · simp at h
    · next rows heq =>
      injection h with h2
      exact ⟨rows, heq, h2.symm⟩

/-- C1: whenever aggregation succeeds, the daily series is strictly sorted
ascending by calendar date (hence has exactly one entry per distinct date),
its dates are exactly the parsed record dates, and the value at each date is
the sum of the coerced amounts of all records bearing that date (malformed
amounts contributing zero through `amtOrZero`). -/
theorem c1_daily_series (records : List RawRecord) (s : List (Date × ℚ))
    (h : aggregate records = Except.ok s) :
    s.Pairwise (fun p r => (Prod.fst p).lexLt (Prod.fst r)) ∧
    (∀ d : Date, d ∈ s.map Prod.fst ↔ ∃ r ∈ records, parseDate r.record_date = some d) ∧
    (∀ d v, (d, v) ∈ s →
      v = ((records.filter (fun r => decide (parseDate r.record_date = some d))).map
        (fun r => amtOrZero r.transaction_today_amt)).sum) := by
  obtain ⟨rows, hpr, rfl⟩ := aggregate_ok_decomp h
  have hvalid : ∀ p ∈ rows, (Prod.fst p).valid := parseRows_rows_valid hpr
  have hvalidG : ∀ p ∈ groupSum rows, (Prod.fst p).valid := by
    intro p hp
    obtain ⟨y, hy, hpy⟩ := fst_mem_groupSum hp
    rw [hpy]
    exact hvalid y hy
  refine ⟨?_, ?_, ?_⟩
  · exact List.Pairwise.imp_of_mem
      (fun {a b} ha hb hab => (dateKey_lt_iff (hvalidG a ha) (hvalidG b hb)).1 hab)
      (groupSum_pairwise rows)
  · intro d
    constructor
    · intro hd
      obtain ⟨p, hp, hpd⟩ := List.mem_map.1 hd
      obtain ⟨y, hy, hpy⟩ := fst_mem_groupSum hp
      obtain ⟨r, hr, hrd⟩ := parseRows_fst_mem hpr y hy
      refine ⟨r, hr, ?_⟩
      rw [hrd, ← hpy, hpd]
    · rintro ⟨r, hr, hrd⟩
      have hdv : d.valid := parseDate_valid hrd
      obtain ⟨p, hp, hpd2⟩ := parseRows_mem_fst hpr r hr
      have hdp : p.1 = d := by
        rw [hrd] at hpd2
        injection hpd2 with e
        exact e.symm
      have hmem1 : dateKey d ∈ rows.map (fun p => dateKey p.1) :=
        List.mem_map.2 ⟨p, hp, by rw [hdp]⟩
      have hkey : dateKey d ∈ (groupSum rows).map (fun p => dateKey p.1) :=
        (key_mem_groupSum_iff _ _).2 hmem1
      obtain ⟨x, hx, hxk⟩ := List.mem_map.1 hkey
      exact List.mem_map.2 ⟨x, hx, dateKey_inj (hvalidG x hx) hdv hxk⟩
  · intro d v hdv
    have hd : d.valid := hvalidG (d, v) hdv
    have h1 : sumKey (dateKey d) (groupSum rows) = v :=
      mem_pairwise_sumKey (groupSum_pairwise rows) hdv
    rw [← h1, sumKey_groupSum, parseRows_sumKey hpr hd]

/-- C1 witness: three records over two dates, one with an empty amount and
one date repeated; the entry for 2025-01-02 sums to 10. -/
theorem c1_witness :
    (10 : ℚ) =
      (([(⟨"2025-01-02", "7"⟩ : RawRecord), ⟨"2025-01-01", ""⟩, ⟨"2025-01-02", "3"⟩].filter
          (fun r => decide (parseDate r.record_date = some ⟨2025, 1, 2⟩))).map
        (fun r => amtOrZero r.transaction_today_amt)).sum := by
  have h0 : aggregate [(⟨"2025-01-02", "7"⟩ : RawRecord), ⟨"2025-01-01", ""⟩, ⟨"2025-01-02", "3"⟩] =
      Except.ok [(⟨2025, 1, 1⟩, amtOrZero ""), (⟨2025, 1, 2⟩, amtOrZero "3" + amtOrZero "7")] := rfl
  have e0 : amtOrZero "" = 0 := rfl
  have e3 : amtOrZero "3" = ((3 : Nat) : ℚ) := rfl
  have e7 : amtOrZero "7" = ((7 : Nat) : ℚ) := rfl
  have h : aggregate [(⟨"2025-01-02", "7"⟩ : RawRecord), ⟨"2025-01-01", ""⟩, ⟨"2025-01-02", "3"⟩] =
      Except.ok [(⟨2025, 1, 1⟩, 0), (⟨2025, 1, 2⟩, 10)] := by
    rw [h0, e0, e3, e7]
    norm_num
  exact (c1_daily_series _ _ h).2.2 ⟨2025, 1, 2⟩ 10 (by simp)

end DtsFlow
